import Mathlib

/-!
# Verification of the Derecho `View` / `SubView` membership layer

Shallow embedding of `src/derecho/view.h` (the membership snapshot for one
epoch of the Derecho group-membership service) together with the parts of its
behaviour that the header only declares, modelled from the specification.

Conventions of the embedding:
* `node_id_t` (C++ `uint32_t`) is a `Nat`; side conditions `< 2 ^ 32` appear
  where the binary codec needs them.
* `ip_addr` (C++ `std::string`) is a `String`.
* C++ `int` / `int32_t` values are `Int` with `[-2 ^ 31, 2 ^ 31)` side
  conditions where the binary codec needs them.
* `std::vector` is `List`; the C-style boolean bytes of `View::failed` are
  `Bool`.
* The mutils serialization library (an external dependency) is modelled as a
  length-prefixed little-endian byte codec: each field listed in a
  `DEFAULT_SERIALIZATION_SUPPORT` invocation is encoded in order, and
  deserialization decodes the fields in order and passes them to the
  deserialization constructor.
-/

namespace Derecho

/-- C++ `node_id_t` (a `uint32_t`). -/
abbrev node_id_t := Nat

/-- C++ `ip_addr` (a `std::string`). -/
abbrev ip_addr := String

/-- Operation mode of a subgroup (`derecho_modes.h`): raw mode does not do
stability and delivery. -/
inductive Mode where
  | ORDERED
  | RAW
deriving DecidableEq

/-- The subset of a View associated with a single shard (or a single
non-sharded subgroup); the data members of `class SubView` (view.h 25-64),
minus nothing: `SubView` holds no transport handles. -/
structure SubView where
  mode : Mode
  members : List node_id_t
  is_sender : List Int
  member_ips : List ip_addr
  joined : List node_id_t
  departed : List node_id_t
  my_rank : Int
deriving DecidableEq

/-- The six-argument `SubView` constructor used by serialization support
(view.h 55-63, inline in the header): it initializes the six serialized
fields and sets `my_rank` to `-1`. -/
def SubView.ofSerialized (mode : Mode) (members : List node_id_t)
    (is_sender : List Int) (member_ips : List ip_addr)
    (joined departed : List node_id_t) : SubView :=
  { mode := mode, members := members, is_sender := is_sender,
    member_ips := member_ips, joined := joined, departed := departed,
    my_rank := -1 }

/-- The data members of `class View` (view.h 66-105), minus the transport
handles (`multicast_group`, `gmsSST`) and the derived subgroup structures
(`subgroup_ids_by_type`, `subgroup_shard_views`, `node_id_to_rank`), which the
claims under verification do not touch. The two flags carry the in-class
default initializers of view.h lines 92 and 105. -/
structure View where
  vid : Int
  members : List node_id_t
  member_ips : List ip_addr
  failed : List Bool
  num_failed : Int
  joined : List node_id_t
  departed : List node_id_t
  num_members : Int
  my_rank : Int
  is_adequately_provisioned : Bool := true
  i_know_i_am_leader : Bool := false
deriving DecidableEq

/-- The nine-argument `View` constructor used by deserialization
(view.h 145-147). Modelled from the spec and the header: its body is not in
the reviewed sources, so, per C++ semantics for members absent from a
constructor, `is_adequately_provisioned` and `i_know_i_am_leader` keep their
in-class default initializers `true` (view.h 92) and `false` (view.h 105). -/
def View.ofSerialized (vid : Int) (members : List node_id_t)
    (member_ips : List ip_addr) (failed : List Bool) (num_failed : Int)
    (joined departed : List node_id_t) (num_members my_rank : Int) : View :=
  { vid := vid, members := members, member_ips := member_ips, failed := failed,
    num_failed := num_failed, joined := joined, departed := departed,
    num_members := num_members, my_rank := my_rank,
    is_adequately_provisioned := true, i_know_i_am_leader := false }

/-! ## Binary codec combinators

Little-endian 4-byte integers, length-prefixed sequences. They model the
boundary contract of the external mutils serialization library. -/

/-- Encode a `uint32_t` value as four little-endian bytes. -/
def encNat32 (n : Nat) : List Nat :=
  [n % 256, n / 256 % 256, n / 65536 % 256, n / 16777216 % 256]

/-- Decode four little-endian bytes into a `uint32_t` value, returning the
remaining bytes. -/
def decNat32 : List Nat → Option (Nat × List Nat)
  | b0 :: b1 :: b2 :: b3 :: rest =>
      some (b0 + 256 * b1 + 65536 * b2 + 16777216 * b3, rest)
  | _ => none

theorem decNat32_encNat32 (n : Nat) (h : n < 2 ^ 32) (rest : List Nat) :
    decNat32 (encNat32 n ++ rest) = some (n, rest) := by
  have hval : n % 256 + 256 * (n / 256 % 256) + 65536 * (n / 65536 % 256)
      + 16777216 * (n / 16777216 % 256) = n := by omega
  simp [encNat32, decNat32, hval]

/-- Encode an `int32_t` value (two's complement, little-endian). -/
def encInt32 (n : Int) : List Nat :=
  encNat32 (n % 2 ^ 32).toNat

/-- Decode an `int32_t` value. -/
def decInt32 (bs : List Nat) : Option (Int × List Nat) :=
  (decNat32 bs).map fun p =>
    (if p.1 < 2 ^ 31 then (p.1 : Int) else (p.1 : Int) - 2 ^ 32, p.2)

theorem decInt32_encInt32 (n : Int) (h1 : -(2 ^ 31) ≤ n) (h2 : n < 2 ^ 31)
    (rest : List Nat) : decInt32 (encInt32 n ++ rest) = some (n, rest) := by
  have hlt : (n % 2 ^ 32).toNat < 2 ^ 32 := by omega
  have hval : (if (n % 2 ^ 32).toNat < 2 ^ 31 then ((n % 2 ^ 32).toNat : Int)
      else ((n % 2 ^ 32).toNat : Int) - 2 ^ 32) = n := by omega
  unfold decInt32 encInt32
  rw [decNat32_encNat32 _ hlt, Option.map_some', hval]

theorem decInt32_encInt32_nil (n : Int) (h1 : -(2 ^ 31) ≤ n)
    (h2 : n < 2 ^ 31) : decInt32 (encInt32 n) = some (n, []) := by
  have := decInt32_encInt32 n h1 h2 []
  simpa using this

/-- Encode a sequence: 4-byte length prefix, then the elements in order. -/
def encListWith {α : Type} (encA : α → List Nat) (l : List α) : List Nat :=
  encNat32 l.length ++ l.foldr (fun a acc => encA a ++ acc) []

/-- Decode exactly `n` consecutive elements. -/
def decCount {α : Type} (decA : List Nat → Option (α × List Nat)) :
    Nat → List Nat → Option (List α × List Nat)
  | 0, bs => some ([], bs)
  | n + 1, bs =>
      (decA bs).bind fun p =>
        (decCount decA n p.2).map fun q => (p.1 :: q.1, q.2)

/-- Decode a length-prefixed sequence. -/
def decListWith {α : Type} (decA : List Nat → Option (α × List Nat))
    (bs : List Nat) : Option (List α × List Nat) :=
  (decNat32 bs).bind fun p => decCount decA p.1 p.2

theorem decCount_enc {α : Type} (encA : α → List Nat)
    (decA : List Nat → Option (α × List Nat)) (l : List α) (rest : List Nat)
    (h : ∀ a ∈ l, ∀ r, decA (encA a ++ r) = some (a, r)) :
    decCount decA l.length (l.foldr (fun a acc => encA a ++ acc) [] ++ rest)
      = some (l, rest) := by
  induction l with
  | nil => simp [decCount]
  | cons a t ih =>
      have ht : ∀ b ∈ t, ∀ r, decA (encA b ++ r) = some (b, r) := by
        intro b hb r
        exact h b (List.mem_cons_of_mem _ hb) r
      simp [decCount, List.append_assoc, h a (List.mem_cons_self a t), ih ht]

theorem decListWith_enc {α : Type} (encA : α → List Nat)
    (decA : List Nat → Option (α × List Nat)) (l : List α) (rest : List Nat)
    (hlen : l.length < 2 ^ 32)
    (h : ∀ a ∈ l, ∀ r, decA (encA a ++ r) = some (a, r)) :
    decListWith decA (encListWith encA l ++ rest) = some (l, rest) := by
  simp only [encListWith, decListWith, List.append_assoc,
    decNat32_encNat32 _ hlen, Option.some_bind, decCount_enc encA decA l rest h]

theorem decListWith_enc_nil {α : Type} (encA : α → List Nat)
    (decA : List Nat → Option (α × List Nat)) (l : List α)
    (hlen : l.length < 2 ^ 32)
    (h : ∀ a ∈ l, ∀ r, decA (encA a ++ r) = some (a, r)) :
    decListWith decA (encListWith encA l) = some (l, []) := by
  have := decListWith_enc encA decA l [] hlen h
  simpa using this

/-- Encode one character of a `std::string` (four bytes per code point). -/
def encChar (c : Char) : List Nat := encNat32 c.toNat

/-- Decode one character. -/
def decChar (bs : List Nat) : Option (Char × List Nat) :=
  (decNat32 bs).map fun p => (Char.ofNat p.1, p.2)

theorem decChar_encChar (c : Char) (rest : List Nat) :
    decChar (encChar c ++ rest) = some (c, rest) := by
  have hlt : c.toNat < 2 ^ 32 := c.val.val.isLt
  unfold decChar encChar
  rw [decNat32_encNat32 _ hlt, Option.map_some', Char.ofNat_toNat]

/-- Encode a `std::string` as a length-prefixed character sequence. -/
def encStr (s : String) : List Nat := encListWith encChar s.toList

/-- Decode a `std::string`. -/
def decStr (bs : List Nat) : Option (String × List Nat) :=
  (decListWith decChar bs).map fun p => (String.mk p.1, p.2)

theorem decStr_encStr (s : String) (hlen : s.toList.length < 2 ^ 32)
    (rest : List Nat) : decStr (encStr s ++ rest) = some (s, rest) := by
  unfold decStr encStr
  rw [decListWith_enc encChar decChar s.toList rest hlen
    (fun a _ r => decChar_encChar a r), Option.map_some']
  rfl

/-- Encode one C-style boolean byte of `View::failed`
(a `std::vector<char>` holding 0 or 1, view.h 76). -/
def encBoolByte (b : Bool) : List Nat := [if b then 1 else 0]

/-- Decode one C-style boolean byte: any nonzero byte reads back as true. -/
def decBoolByte : List Nat → Option (Bool × List Nat)
  | b :: rest => some (b != 0, rest)
  | [] => none

theorem decBoolByte_encBoolByte (b : Bool) (rest : List Nat) :
    decBoolByte (encBoolByte b ++ rest) = some (b, rest) := by
  cases b <;> rfl

/-- Encode the `Mode` enum as its underlying value. -/
def encMode : Mode → List Nat
  | Mode.ORDERED => encNat32 0
  | Mode.RAW => encNat32 1

/-- Decode the `Mode` enum. -/
def decMode (bs : List Nat) : Option (Mode × List Nat) :=
  (decNat32 bs).bind fun p =>
    match p.1 with
    | 0 => some (Mode.ORDERED, p.2)
    | 1 => some (Mode.RAW, p.2)
    | _ => none

theorem decMode_encMode (m : Mode) (rest : List Nat) :
    decMode (encMode m ++ rest) = some (m, rest) := by
  cases m
  · unfold decMode encMode
    rw [decNat32_encNat32 0 (by norm_num) rest]
    rfl
  · unfold decMode encMode
    rw [decNat32_encNat32 1 (by norm_num) rest]
    rfl

/-! ## SubView and View serialization

`DEFAULT_SERIALIZATION_SUPPORT(SubView, mode, members, is_sender, member_ips,
joined, departed)` (view.h 54) and `DEFAULT_SERIALIZATION_SUPPORT(View, vid,
members, member_ips, failed, num_failed, joined, departed, num_members,
my_rank)` (view.h 142) name the serialized fields; the macro expansion itself
lives in the external mutils library and is modelled here as: encode exactly
the listed fields in order, decode them in order and hand them to the
deserialization constructor. -/

/-- `SubView::to_bytes`: the six listed fields, in order. -/
def SubView.to_bytes (sv : SubView) : List Nat :=
  encMode sv.mode ++ encListWith encNat32 sv.members
    ++ encListWith encInt32 sv.is_sender ++ encListWith encStr sv.member_ips
    ++ encListWith encNat32 sv.joined ++ encListWith encNat32 sv.departed

/-- `SubView::from_bytes`: decode the six listed fields in order and call the
six-argument constructor (which sets `my_rank := -1`). -/
def SubView.from_bytes (bs : List Nat) : Option SubView :=
  match decMode bs with
  | none => none
  | some (mode, bs1) =>
    match decListWith decNat32 bs1 with
    | none => none
    | some (members, bs2) =>
      match decListWith decInt32 bs2 with
      | none => none
      | some (is_sender, bs3) =>
        match decListWith decStr bs3 with
        | none => none
        | some (member_ips, bs4) =>
          match decListWith decNat32 bs4 with
          | none => none
          | some (joined, bs5) =>
            match decListWith decNat32 bs5 with
            | none => none
            | some (departed, _) =>
              some (SubView.ofSerialized mode members is_sender member_ips
                joined departed)

/-- Side condition under which an `Int` fits the `int32_t` wire format. -/
def int32Bound (n : Int) : Prop := -(2 ^ 31) ≤ n ∧ n < 2 ^ 31

instance (n : Int) : Decidable (int32Bound n) := by
  unfold int32Bound; infer_instance

/-- Side conditions under which a `SubView` fits the wire format (its C++
field types guarantee all of them). -/
def SubView.serializable (sv : SubView) : Prop :=
  sv.members.length < 2 ^ 32 ∧ (∀ m ∈ sv.members, m < 2 ^ 32) ∧
  sv.is_sender.length < 2 ^ 32 ∧ (∀ s ∈ sv.is_sender, int32Bound s) ∧
  sv.member_ips.length < 2 ^ 32 ∧ (∀ ip ∈ sv.member_ips, ip.toList.length < 2 ^ 32) ∧
  sv.joined.length < 2 ^ 32 ∧ (∀ m ∈ sv.joined, m < 2 ^ 32) ∧
  sv.departed.length < 2 ^ 32 ∧ (∀ m ∈ sv.departed, m < 2 ^ 32)

instance (sv : SubView) : Decidable sv.serializable := by
  unfold SubView.serializable
  infer_instance

theorem subview_decode_encode (sv : SubView) (h : sv.serializable) :
    SubView.from_bytes sv.to_bytes
      = some (SubView.ofSerialized sv.mode sv.members sv.is_sender
          sv.member_ips sv.joined sv.departed) := by
  obtain ⟨h1, h2, h3, h4, h5, h6, h7, h8, h9, h10⟩ := h
  have hmem := fun r => decListWith_enc encNat32 decNat32 sv.members r h1
    (fun a ha r2 => decNat32_encNat32 a (h2 a ha) r2)
  have hsnd := fun r => decListWith_enc encInt32 decInt32 sv.is_sender r h3
    (fun a ha r2 => decInt32_encInt32 a (h4 a ha).1 (h4 a ha).2 r2)
  have hips := fun r => decListWith_enc encStr decStr sv.member_ips r h5
    (fun a ha r2 => decStr_encStr a (h6 a ha) r2)
  have hjoin := fun r => decListWith_enc encNat32 decNat32 sv.joined r h7
    (fun a ha r2 => decNat32_encNat32 a (h8 a ha) r2)
  have hdep := decListWith_enc_nil encNat32 decNat32 sv.departed h9
    (fun a ha r2 => decNat32_encNat32 a (h10 a ha) r2)
  simp [SubView.from_bytes, SubView.to_bytes, List.append_assoc, decMode_encMode,
    hmem, hsnd, hips, hjoin, hdep]

/-- `View::to_bytes`: the nine listed fields, in order. -/
def View.to_bytes (v : View) : List Nat :=
  encInt32 v.vid ++ encListWith encNat32 v.members
    ++ encListWith encStr v.member_ips ++ encListWith encBoolByte v.failed
    ++ encInt32 v.num_failed ++ encListWith encNat32 v.joined
    ++ encListWith encNat32 v.departed ++ encInt32 v.num_members
    ++ encInt32 v.my_rank

/-- `View::from_bytes`: decode the nine listed fields in order and call the
nine-argument deserialization constructor. -/
def View.from_bytes (bs : List Nat) : Option View :=
  match decInt32 bs with
  | none => none
  | some (vid, bs1) =>
    match decListWith decNat32 bs1 with
    | none => none
    | some (members, bs2) =>
      match decListWith decStr bs2 with
      | none => none
      | some (member_ips, bs3) =>
        match decListWith decBoolByte bs3 with
        | none => none
        | some (failed, bs4) =>
          match decInt32 bs4 with
          | none => none
          | some (num_failed, bs5) =>
            match decListWith decNat32 bs5 with
            | none => none
            | some (joined, bs6) =>
              match decListWith decNat32 bs6 with
              | none => none
              | some (departed, bs7) =>
                match decInt32 bs7 with
                | none => none
                | some (num_members, bs8) =>
                  match decInt32 bs8 with
                  | none => none
                  | some (my_rank, _) =>
                    some (View.ofSerialized vid members member_ips failed
                      num_failed joined departed num_members my_rank)

/-- Side conditions under which a `View` fits the wire format (its C++ field
types guarantee all of them). -/
def View.serializable (v : View) : Prop :=
  int32Bound v.vid ∧ int32Bound v.num_failed ∧ int32Bound v.num_members ∧
  int32Bound v.my_rank ∧
  v.members.length < 2 ^ 32 ∧ (∀ m ∈ v.members, m < 2 ^ 32) ∧
  v.member_ips.length < 2 ^ 32 ∧ (∀ ip ∈ v.member_ips, ip.toList.length < 2 ^ 32) ∧
  v.failed.length < 2 ^ 32 ∧
  v.joined.length < 2 ^ 32 ∧ (∀ m ∈ v.joined, m < 2 ^ 32) ∧
  v.departed.length < 2 ^ 32 ∧ (∀ m ∈ v.departed, m < 2 ^ 32)

instance (v : View) : Decidable v.serializable := by
  unfold View.serializable
  infer_instance

theorem view_decode_encode (v : View) (h : v.serializable) :
    View.from_bytes v.to_bytes
      = some (View.ofSerialized v.vid v.members v.member_ips v.failed
          v.num_failed v.joined v.departed v.num_members v.my_rank) := by
  obtain ⟨hv, hnf, hnm, hmr, h1, h2, h3, h4, h5, h6, h7, h8, h9⟩ := h
  have hmem := fun r => decListWith_enc encNat32 decNat32 v.members r h1
    (fun a ha r2 => decNat32_encNat32 a (h2 a ha) r2)
  have hips := fun r => decListWith_enc encStr decStr v.member_ips r h3
    (fun a ha r2 => decStr_encStr a (h4 a ha) r2)
  have hfail := fun r => decListWith_enc encBoolByte decBoolByte v.failed r h5
    (fun a _ r2 => decBoolByte_encBoolByte a r2)
  have hjoin := fun r => decListWith_enc encNat32 decNat32 v.joined r h6
    (fun a ha r2 => decNat32_encNat32 a (h7 a ha) r2)
  have hdep := fun r => decListWith_enc encNat32 decNat32 v.departed r h8
    (fun a ha r2 => decNat32_encNat32 a (h9 a ha) r2)
  have hvid := fun r => decInt32_encInt32 v.vid hv.1 hv.2 r
  have hnf2 := fun r => decInt32_encInt32 v.num_failed hnf.1 hnf.2 r
  have hnm2 := fun r => decInt32_encInt32 v.num_members hnm.1 hnm.2 r
  have hmr2 := decInt32_encInt32_nil v.my_rank hmr.1 hmr.2
  simp [View.from_bytes, View.to_bytes, List.append_assoc, hmem, hips, hfail,
    hjoin, hdep, hvid, hnf2, hnm2, hmr2]

/-! ## Rank lookups

The bodies of the `rank_of` overloads are only declared in the reviewed
sources; the spec (§4.1, §4.2, §8) fixes them as linear search returning the
index in the respective list, with sentinel -1 for absence. -/

/-- Linear search for the first index of `who`, as the C++ `rank_of` loops do. -/
def findRank {α : Type} [DecidableEq α] (who : α) : List α → Option Nat
  | [] => none
  | m :: rest => if m = who then some 0 else (findRank who rest).map (· + 1)

theorem findRank_eq_none_iff {α : Type} [DecidableEq α] (who : α)
    (l : List α) : findRank who l = none ↔ who ∉ l := by
  induction l with
  | nil => simp [findRank]
  | cons m rest ih =>
      by_cases hm : m = who
      · simp [findRank, hm]
      · simp only [findRank, if_neg hm, Option.map_eq_none', ih, List.mem_cons]
        constructor
        · intro h hc
          rcases hc with h1 | h2
          · exact hm h1.symm
          · exact h h2
        · intro h hmem
          exact h (Or.inr hmem)

theorem findRank_first_index {α : Type} [DecidableEq α] (who : α)
    (l : List α) (i : Nat) (h : findRank who l = some i) :
    l.get? i = some who ∧ ∀ j, j < i → l.get? j ≠ some who := by
  induction l generalizing i with
  | nil => cases h
  | cons m rest ih =>
      by_cases hm : m = who
      · have h0 : findRank who (m :: rest) = some 0 := by simp [findRank, hm]
        rw [h0] at h
        cases h
        subst hm
        exact ⟨rfl, by omega⟩
      · have h1 : findRank who (m :: rest) = (findRank who rest).map (· + 1) := by
          simp [findRank, hm]
        rw [h1] at h
        cases hfr : findRank who rest with
        | none => rw [hfr] at h; cases h
        | some i2 =>
            rw [hfr] at h
            have hi : i = i2 + 1 := by
              simp at h
              omega
            subst hi
            obtain ⟨hget, hfirst⟩ := ih i2 hfr
            refine ⟨hget, ?_⟩
            intro j hj
            cases j with
            | zero =>
                intro he
                exact hm (Option.some.inj he)
            | succ j2 =>
                exact hfirst j2 (by omega)

theorem findRank_isSome_of_mem {α : Type} [DecidableEq α] (who : α)
    (l : List α) (h : who ∈ l) : ∃ i, findRank who l = some i := by
  cases hfr : findRank who l with
  | none => exact absurd ((findRank_eq_none_iff who l).mp hfr) (by simp [h])
  | some i => exact ⟨i, rfl⟩

/-- Rank with the -1 sentinel, shared shape of all `rank_of` overloads. -/
def rankIn {α : Type} [DecidableEq α] (who : α) (l : List α) : Int :=
  match findRank who l with
  | some i => (i : Int)
  | none => -1

theorem rankIn_eq_neg_one_iff {α : Type} [DecidableEq α] (who : α)
    (l : List α) : rankIn who l = -1 ↔ who ∉ l := by
  unfold rankIn
  cases h : findRank who l with
  | none => simp [(findRank_eq_none_iff who l).mp h]
  | some i =>
      have hmem : who ∈ l := by
        by_contra hmem
        rw [(findRank_eq_none_iff who l).mpr hmem] at h
        cases h
      show (i : Int) = -1 ↔ who ∉ l
      constructor
      · intro hi
        exfalso
        omega
      · intro hno
        exact absurd hmem hno

theorem rankIn_first_index {α : Type} [DecidableEq α] (who : α) (l : List α)
    (h : who ∈ l) :
    ∃ i : Nat, rankIn who l = (i : Int) ∧ l.get? i = some who ∧
      ∀ j, j < i → l.get? j ≠ some who := by
  obtain ⟨i, hfr⟩ := findRank_isSome_of_mem who l h
  obtain ⟨hget, hfirst⟩ := findRank_first_index who l i hfr
  refine ⟨i, ?_, hget, hfirst⟩
  unfold rankIn
  rw [hfr]

/-- Modelled from the spec: the body of `SubView::rank_of` is only declared in
the reviewed sources (view.h 43-45); the spec fixes it as the sub-view index
of the node ID, or -1 if absent. -/
def SubView.rank_of (sv : SubView) (who : node_id_t) : Int :=
  rankIn who sv.members

/-- Modelled from the spec: the body of `View::rank_of(const node_id_t&)` is
only declared in the reviewed sources (view.h 120-121); the spec fixes it as
the SST rank of the node ID, or -1 if absent. -/
def View.rank_of (v : View) (who : node_id_t) : Int :=
  rankIn who v.members

/-- Modelled from the spec: the body of `View::rank_of(const ip_addr&)` is
only declared in the reviewed sources (view.h 118-119); the spec fixes it as
the SST rank of the IP address, or -1 if absent. -/
def View.rank_of_ip (v : View) (who : ip_addr) : Int :=
  rankIn who v.member_ips

/-- Modelled from the spec: the body of `View::rank_of_leader` is only
declared in the reviewed sources (view.h 122-123); the spec (§4.2) fixes it as
the lowest rank whose `failed` entry is false. -/
def View.rank_of_leader (v : View) : Int :=
  (v.failed.findIdx (fun b => !b) : Int)

theorem findIdx_not_eq_of_lowest (l : List Bool) (r : Nat) (hr : r < l.length)
    (hfalse : l.getD r true = false)
    (hmin : ∀ j, j < r → l.getD j true = true) :
    l.findIdx (fun b => !b) = r := by
  induction l generalizing r with
  | nil => simp at hr
  | cons b t ih =>
      cases r with
      | zero =>
          have hb : b = false := by simpa using hfalse
          simp [List.findIdx_cons, hb]
      | succ r2 =>
          have hb : b = true := by
            have := hmin 0 (Nat.succ_pos r2)
            simpa using this
          have hr2 : r2 < t.length := by simpa using hr
          have hf2 : t.getD r2 true = false := by simpa using hfalse
          have hm2 : ∀ j, j < r2 → t.getD j true = true := by
            intro j hj
            have := hmin (j + 1) (Nat.succ_lt_succ hj)
            simpa using this
          simp [List.findIdx_cons, hb, ih r2 hr2 hf2 hm2]

/-- Modelled from the spec: the body of `SubView::sender_rank_of` is only
declared in the reviewed sources (view.h 46-47); the spec (§4.1) fixes it as
-1 for a non-sender and otherwise the count of senders at lower ranks. -/
def SubView.sender_rank_of (sv : SubView) (rank : Nat) : Int :=
  if sv.is_sender.getD rank 0 = 0 then -1
  else (((sv.is_sender.take rank).filter (fun s => s != 0)).length : Int)

/-! ## merge_changes

Modelled from the spec: the body of `View::merge_changes` is only declared in
the reviewed sources (view.h 128-129). The spec (§4.4 step 1) fixes it as a
conservative, deterministic union: every member's row of failure/join
suggestions is folded, in canonical (ascending rank) order, into this node's
working change set, skipping suggestions already incorporated. -/

/-- Incorporate one suggestion into the working change set, skipping it if it
is already present. -/
def addChange (working : List node_id_t) (c : node_id_t) : List node_id_t :=
  if c ∈ working then working else working ++ [c]

/-- Union one member's row of suggestions into the working change set. -/
def mergeRow (working row : List node_id_t) : List node_id_t :=
  row.foldl addChange working

/-- Union every row of the shared proposal table, in rank order, into this
node's working change set. -/
def merge_changes (working : List node_id_t)
    (rows : List (List node_id_t)) : List node_id_t :=
  rows.foldl mergeRow working

theorem mem_addChange (working : List node_id_t) (c a : node_id_t)
    (h : a ∈ working) : a ∈ addChange working c := by
  unfold addChange
  split
  · exact h
  · exact List.mem_append_left _ h

theorem self_mem_addChange (working : List node_id_t) (c : node_id_t) :
    c ∈ addChange working c := by
  unfold addChange
  split
  · assumption
  · exact List.mem_append_right _ (List.mem_singleton.mpr rfl)

theorem addChange_of_mem (working : List node_id_t) (c : node_id_t)
    (h : c ∈ working) : addChange working c = working := if_pos h

theorem mem_mergeRow_of_mem (working row : List node_id_t) (a : node_id_t)
    (h : a ∈ working) : a ∈ mergeRow working row := by
  induction row generalizing working with
  | nil => exact h
  | cons c rest ih => exact ih (addChange working c) (mem_addChange working c a h)

theorem row_mem_mergeRow (working row : List node_id_t) (a : node_id_t)
    (h : a ∈ row) : a ∈ mergeRow working row := by
  induction row generalizing working with
  | nil => cases h
  | cons c rest ih =>
      rcases List.mem_cons.mp h with h1 | h2
      · subst h1
        exact mem_mergeRow_of_mem (addChange working a) rest a
          (self_mem_addChange working a)
      · exact ih (addChange working c) h2

theorem mergeRow_of_subset (working row : List node_id_t)
    (h : ∀ c ∈ row, c ∈ working) : mergeRow working row = working := by
  induction row with
  | nil => rfl
  | cons c rest ih =>
      show mergeRow (addChange working c) rest = working
      rw [addChange_of_mem working c (h c (List.mem_cons_self c rest))]
      exact ih fun c2 hc2 => h c2 (List.mem_cons_of_mem _ hc2)

theorem mem_merge_changes_of_mem (working : List node_id_t)
    (rows : List (List node_id_t)) (a : node_id_t) (h : a ∈ working) :
    a ∈ merge_changes working rows := by
  induction rows generalizing working with
  | nil => exact h
  | cons row rest ih => exact ih (mergeRow working row) (mem_mergeRow_of_mem working row a h)

theorem row_mem_merge_changes (working : List node_id_t)
    (rows : List (List node_id_t)) (row : List node_id_t) (a : node_id_t)
    (hrow : row ∈ rows) (h : a ∈ row) : a ∈ merge_changes working rows := by
  induction rows generalizing working with
  | nil => cases hrow
  | cons r rest ih =>
      rcases List.mem_cons.mp hrow with h1 | h2
      · subst h1
        exact mem_merge_changes_of_mem (mergeRow working row) rest a
          (row_mem_mergeRow working row a h)
      · exact ih (mergeRow working r) h2

theorem merge_changes_of_subset (working : List node_id_t)
    (rows : List (List node_id_t))
    (h : ∀ row ∈ rows, ∀ c ∈ row, c ∈ working) :
    merge_changes working rows = working := by
  induction rows with
  | nil => rfl
  | cons row rest ih =>
      show merge_changes (mergeRow working row) rest = working
      rw [mergeRow_of_subset working row (h row (List.mem_cons_self row rest))]
      exact ih fun r hr => h r (List.mem_cons_of_mem _ hr)

/-! ## make_subview -/

/-- The provisioning failure thrown by `make_subview`
(`subgroup_provisioning_exception`), a type distinct from the -1 rank
sentinel of the lookup functions. -/
inductive subgroup_provisioning_exception where
  | mk
deriving DecidableEq

/-- Modelled from the spec: the body of `View::make_subview` is only declared
in the reviewed sources (view.h 107-116). The spec (§4.3) and the header
comment fix it: every requested node must be a member of this View, otherwise
a `subgroup_provisioning_exception` is thrown; on success it builds a SubView
(through the six-argument constructor) with the requested members, their IPs
looked up in this View, the intersections of `joined`/`departed` with the
requested members, and an all-senders mask when none is supplied. -/
def View.make_subview (v : View) (with_members : List node_id_t) (mode : Mode)
    (is_sender : List Int) :
    Except subgroup_provisioning_exception SubView :=
  if with_members.all fun m => v.members.contains m then
    Except.ok (SubView.ofSerialized mode with_members
      (if is_sender.isEmpty then with_members.map fun _ => 1 else is_sender)
      (with_members.map fun m =>
        v.member_ips.getD ((findRank m v.members).getD 0) "")
      (v.joined.filter fun j => with_members.contains j)
      (v.departed.filter fun j => with_members.contains j))
  else
    Except.error subgroup_provisioning_exception.mk

/-! ## load_view -/

/-- Modelled from the spec: the body of `load_view` is only declared in the
reviewed sources (view.h 154-161). Per its header comment and spec §4.5, it
reads the primary view file and any leftover swap file (modelled as the
optional byte strings read from disk) and uses the swap View iff it is newer
than the primary View according to vid. -/
def load_view (primaryBytes swapBytes : Option (List Nat)) : Option View :=
  match primaryBytes.bind View.from_bytes, swapBytes.bind View.from_bytes with
  | none, none => none
  | some pv, none => some pv
  | none, some sv => some sv
  | some pv, some sv => if pv.vid < sv.vid then some sv else some pv

/-! ## The membership transition engine

The transition algorithm bodies are not part of the reviewed sources (view.h
only declares the engine's methods); the Views it produces are modelled from
the spec (§3 Lifecycle, §4.4). -/

/-- The `failed` flag recorded for node `m` in the flag vector `fl` parallel
to the member list `mems`; false for a non-member. -/
def lookupFlag (mems : List node_id_t) (fl : List Bool) (m : node_id_t) : Bool :=
  match findRank m mems with
  | some i => fl.getD i false
  | none => false

/-- This View's `failed` flag for node `m` (false for a non-member). -/
def View.failed_of (v : View) (m : node_id_t) : Bool :=
  lookupFlag v.members v.failed m

/-- Modelled from the spec (§3 Lifecycle (a), §4.4): the View at group
formation: vid 0, no joined/departed, nothing failed. -/
def formationView (members : List node_id_t) (member_ips : List ip_addr)
    (my_rank : Int) : View :=
  { vid := 0, members := members, member_ips := member_ips,
    failed := members.map fun _ => false, num_failed := 0, joined := [],
    departed := [], num_members := (members.length : Int), my_rank := my_rank,
    is_adequately_provisioned := true, i_know_i_am_leader := false }

/-- Modelled from the spec (§4.4 step 4): next-View construction. New
`members` = old members with confirmed departures removed and joiners
appended; `failed` recomputed against the new member list (surviving members
keep their flag, joiners start unfailed); `vid` = old vid + 1; `joined` /
`departed` = exactly the nodes added/removed in this step. `num_failed` is
maintained as the header describes (view.h 77-80): transitioning to a view
that excludes a failed member decreases the count by one. -/
def nextView (prior : View) (departs joins : List node_id_t)
    (joinIps : List ip_addr) (my_rank : Int) : View :=
  let survivors := prior.members.filter fun m => !(departs.contains m)
  let removed := prior.members.filter fun m => departs.contains m
  let newMembers := survivors ++ joins
  { vid := prior.vid + 1
    members := newMembers
    member_ips := (survivors.map fun m =>
      prior.member_ips.getD ((findRank m prior.members).getD 0) "") ++ joinIps
    failed := newMembers.map fun m => prior.failed_of m
    num_failed := prior.num_failed - ((removed.countP fun m => prior.failed_of m : Nat) : Int)
    joined := joins
    departed := removed
    num_members := (newMembers.length : Int)
    my_rank := my_rank
    is_adequately_provisioned := true
    i_know_i_am_leader := false }

/-- The committed Views a node's local history can contain, per the spec's
lifecycle: the formation View, or the output of a membership transition from
a produced View. Joiners are fresh, pairwise distinct node IDs (spec §4.4:
a join of a current member resolves to a failure first), and the formation
member list has no duplicates (spec §3 invariant). -/
inductive ProducedView : View → Prop where
  | formation : ∀ (members : List node_id_t) (ips : List ip_addr)
      (my_rank : Int), members.Nodup →
      ProducedView (formationView members ips my_rank)
  | transition : ∀ (prior : View) (departs joins : List node_id_t)
      (joinIps : List ip_addr) (my_rank : Int), ProducedView prior →
      joins.Nodup → (∀ j ∈ joins, j ∉ prior.members) →
      ProducedView (nextView prior departs joins joinIps my_rank)

/-! Counting lemmas connecting `num_failed` bookkeeping to the true-count of
the `failed` vector. -/

theorem count_true_map_eq_countP {α : Type} (f : α → Bool) (l : List α) :
    (l.map f).count true = l.countP f := by
  induction l with
  | nil => rfl
  | cons a t ih =>
      rw [List.map_cons, List.count_cons, List.countP_cons, ih]
      cases h : f a <;> simp

theorem countP_filter_split {α : Type} (p f : α → Bool) (l : List α) :
    (l.filter p).countP f + (l.filter fun a => !(p a)).countP f = l.countP f := by
  induction l with
  | nil => rfl
  | cons a t ih =>
      cases h : p a <;>
        simp [List.filter_cons, h, List.countP_cons, ← ih] <;>
        cases f a <;> simp <;> omega

theorem countP_lookupFlag (mems : List node_id_t) (fl : List Bool)
    (hnd : mems.Nodup) (hlen : fl.length = mems.length) :
    (mems.countP fun m => lookupFlag mems fl m) = fl.count true := by
  induction mems generalizing fl with
  | nil =>
      have hnil : fl = [] := List.length_eq_zero.mp (by simpa using hlen)
      subst hnil
      rfl
  | cons m0 rest ih =>
      cases fl with
      | nil => simp at hlen
      | cons b fl2 =>
          have hm0 : m0 ∉ rest := (List.nodup_cons.mp hnd).1
          have hnd2 : rest.Nodup := (List.nodup_cons.mp hnd).2
          have hlen2 : fl2.length = rest.length := by simpa using hlen
          have hpt : ∀ m ∈ rest,
              lookupFlag (m0 :: rest) (b :: fl2) m = lookupFlag rest fl2 m := by
            intro m hm
            have hne : m0 ≠ m := fun he => hm0 (he ▸ hm)
            have hstep : findRank m (m0 :: rest) = (findRank m rest).map (· + 1) := by
              simp [findRank, hne]
            unfold lookupFlag
            rw [hstep]
            cases hfr : findRank m rest with
            | none => simp
            | some i => simp
          have hhead : lookupFlag (m0 :: rest) (b :: fl2) m0 = b := by
            simp [lookupFlag, findRank]
          have hcongr : (rest.countP fun m => lookupFlag (m0 :: rest) (b :: fl2) m)
              = rest.countP fun m => lookupFlag rest fl2 m :=
            List.countP_congr fun m hm => by rw [hpt m hm]
          rw [List.countP_cons, List.count_cons, hhead, hcongr, ih fl2 hnd2 hlen2]
          cases b <;> simp

/-- The structural invariant carried by every produced View: `num_failed`
agrees with the true-count of `failed`, `members` has no duplicates, and
`failed` is index-aligned with `members`. -/
theorem produced_invariant (v : View) (h : ProducedView v) :
    v.num_failed = (v.failed.count true : Int) ∧ v.members.Nodup ∧
      v.failed.length = v.members.length := by
  induction h with
  | formation members ips my_rank hnd =>
      refine ⟨?_, hnd, by simp [formationView]⟩
      simp [formationView, List.count_replicate]
  | transition prior departs joins joinIps my_rank hp hjnd hjfresh ih =>
      obtain ⟨ihc, ihnd, ihlen⟩ := ih
      have hjoin0 : joins.countP (fun m => prior.failed_of m) = 0 := by
        rw [List.countP_eq_zero]
        intro j hj
        have hfr : findRank j prior.members = none :=
          (findRank_eq_none_iff j prior.members).mpr (hjfresh j hj)
        simp [View.failed_of, lookupFlag, hfr]
      have hsplit := countP_filter_split (fun m => departs.contains m)
        (fun m => prior.failed_of m) prior.members
      have htotal : prior.members.countP (fun m => prior.failed_of m)
          = prior.failed.count true := by
        have := countP_lookupFlag prior.members prior.failed ihnd ihlen
        simpa [View.failed_of] using this
      have hcount : (((prior.members.filter fun m => !(departs.contains m))
            ++ joins).map fun m => prior.failed_of m).count true
          = (prior.members.filter fun m => !(departs.contains m)).countP
              fun m => prior.failed_of m := by
        rw [count_true_map_eq_countP, List.countP_append, hjoin0]
        omega
      refine ⟨?_, ?_, ?_⟩
      · simp only [nextView]
        rw [hcount]
        omega
      · simp only [nextView]
        refine List.Nodup.append (ihnd.filter _) hjnd ?_
        intro a haS haj
        exact hjfresh a haj (List.mem_of_mem_filter haS)
      · simp [nextView]

/-! ## Concrete sample values used by the witnesses -/

/-- A small concrete View. -/
def sampleView : View :=
  { vid := 1, members := [10, 20, 30],
    member_ips := ["10.0.0.1", "10.0.0.2", "10.0.0.3"],
    failed := [true, false, false], num_failed := 1, joined := [30],
    departed := [40], num_members := 3, my_rank := 1 }

/-- A second concrete View with the same `failed` bitmap as `sampleView`. -/
def sampleView2 : View :=
  { vid := 6, members := [7, 8, 9], member_ips := ["a", "b", "c"],
    failed := [true, false, false], num_failed := 1, joined := [],
    departed := [], num_members := 3, my_rank := 0 }

/-- A small concrete SubView. -/
def sampleSub : SubView :=
  { mode := Mode.ORDERED, members := [20, 30], is_sender := [1, 0],
    member_ips := ["10.0.0.2", "10.0.0.3"], joined := [], departed := [],
    my_rank := 0 }

/-! ## The claims -/

/-- C3: for every View, `rank_of_leader()` returns the lowest rank `r` such
that `failed[r]` is false (stated with `r` given as that lowest rank),
provided at least one member is not marked failed; and, the result being a
function of the `failed` bitmap alone, any two Views with identical `failed`
bitmaps obtain the same leader rank, regardless of which node evaluates it. -/
theorem c3_rank_of_leader_lowest_live (v1 v2 : View) (r : Nat)
    (hr : r < v1.failed.length)
    (hlive : v1.failed.getD r true = false)
    (hmin : ∀ j, j < r → v1.failed.getD j true = true) :
    v1.rank_of_leader = (r : Int) ∧
      (v1.failed = v2.failed → v1.rank_of_leader = v2.rank_of_leader) := by
  constructor
  · unfold View.rank_of_leader
    rw [findIdx_not_eq_of_lowest v1.failed r hr hlive hmin]
  · intro he
    unfold View.rank_of_leader
    rw [he]

theorem c3_witness :
    sampleView.rank_of_leader = ((1 : Nat) : Int) ∧
      (sampleView.failed = sampleView2.failed →
        sampleView.rank_of_leader = sampleView2.rank_of_leader) :=
  c3_rank_of_leader_lowest_live sampleView sampleView2 1 (by decide) (by decide)
    (by
      intro j hj
      have hj0 : j = 0 := by omega
      subst hj0
      decide)

/-- C4: `merge_changes` is idempotent: merging the same set of proposal rows
twice into this node's working change set yields exactly the same working
change set as merging them once. -/
theorem c4_merge_changes_idempotent (working : List node_id_t)
    (rows : List (List node_id_t)) :
    merge_changes (merge_changes working rows) rows
      = merge_changes working rows :=
  merge_changes_of_subset (merge_changes working rows) rows
    fun row hrow c hc => row_mem_merge_changes working rows row c hrow hc

/-- C5: `make_subview` fails with a `subgroup_provisioning_exception` (a type
distinct from the -1 rank sentinel of the lookups) if and only if some
requested node is not present in this View's `members`. -/
theorem c5_make_subview_error_iff (v : View) (wm : List node_id_t)
    (mode : Mode) (snd : List Int) :
    (∃ e, v.make_subview wm mode snd = Except.error e)
      ↔ ∃ m ∈ wm, m ∉ v.members := by
  have hbridge : ((wm.all fun m => v.members.contains m) = true)
      ↔ ∀ m ∈ wm, m ∈ v.members := by
    simp [List.all_eq_true]
  constructor
  · rintro ⟨e, he⟩
    by_contra hno
    push_neg at hno
    have hall : (wm.all fun m => v.members.contains m) = true := hbridge.mpr hno
    unfold View.make_subview at he
    rw [if_pos hall] at he
    exact Except.noConfusion he
  · rintro ⟨m, hmem, hnm⟩
    have hall : ¬((wm.all fun m => v.members.contains m) = true) := by
      intro hx
      exact hnm (hbridge.mp hx m hmem)
    refine ⟨subgroup_provisioning_exception.mk, ?_⟩
    unfold View.make_subview
    rw [if_neg hall]

theorem c5_witness :
    ((∃ e, sampleView.make_subview [20, 99] Mode.ORDERED [] = Except.error e)
      ↔ ∃ m ∈ [20, 99], m ∉ sampleView.members) ∧
    ((∃ e, sampleView.make_subview [20, 30] Mode.ORDERED [] = Except.error e)
      ↔ ∃ m ∈ [20, 30], m ∉ sampleView.members) :=
  ⟨c5_make_subview_error_iff sampleView [20, 99] Mode.ORDERED [],
   c5_make_subview_error_iff sampleView [20, 30] Mode.ORDERED []⟩

/-- C6: for every View and SubView and every query key, `rank_of` returns -1
exactly when the key is absent from the respective members list, and for a
present key it returns the key's index in that list (the first position
holding it). -/
theorem c6_rank_of_sentinel_and_index (v : View) (sv : SubView)
    (n : node_id_t) (ip : ip_addr) :
    ((v.rank_of n = -1 ↔ n ∉ v.members) ∧
     (v.rank_of_ip ip = -1 ↔ ip ∉ v.member_ips) ∧
     (sv.rank_of n = -1 ↔ n ∉ sv.members)) ∧
    ((n ∈ v.members → ∃ i : Nat, v.rank_of n = (i : Int) ∧
        v.members.get? i = some n ∧ ∀ j, j < i → v.members.get? j ≠ some n) ∧
     (ip ∈ v.member_ips → ∃ i : Nat, v.rank_of_ip ip = (i : Int) ∧
        v.member_ips.get? i = some ip ∧
          ∀ j, j < i → v.member_ips.get? j ≠ some ip) ∧
     (n ∈ sv.members → ∃ i : Nat, sv.rank_of n = (i : Int) ∧
        sv.members.get? i = some n ∧ ∀ j, j < i → sv.members.get? j ≠ some n)) :=
  ⟨⟨rankIn_eq_neg_one_iff n v.members, rankIn_eq_neg_one_iff ip v.member_ips,
    rankIn_eq_neg_one_iff n sv.members⟩,
   fun h => rankIn_first_index n v.members h,
   fun h => rankIn_first_index ip v.member_ips h,
   fun h => rankIn_first_index n sv.members h⟩

theorem c6_witness :
    ((sampleView.rank_of 20 = -1 ↔ (20 : node_id_t) ∉ sampleView.members) ∧
     (sampleView.rank_of_ip "1.2.3.4" = -1
        ↔ ("1.2.3.4" : ip_addr) ∉ sampleView.member_ips) ∧
     (sampleSub.rank_of 20 = -1 ↔ (20 : node_id_t) ∉ sampleSub.members)) ∧
    (((20 : node_id_t) ∈ sampleView.members → ∃ i : Nat,
        sampleView.rank_of 20 = (i : Int) ∧
        sampleView.members.get? i = some 20 ∧
          ∀ j, j < i → sampleView.members.get? j ≠ some 20) ∧
     (("1.2.3.4" : ip_addr) ∈ sampleView.member_ips → ∃ i : Nat,
        sampleView.rank_of_ip "1.2.3.4" = (i : Int) ∧
        sampleView.member_ips.get? i = some "1.2.3.4" ∧
          ∀ j, j < i → sampleView.member_ips.get? j ≠ some "1.2.3.4") ∧
     ((20 : node_id_t) ∈ sampleSub.members → ∃ i : Nat,
        sampleSub.rank_of 20 = (i : Int) ∧
        sampleSub.members.get? i = some 20 ∧
          ∀ j, j < i → sampleSub.members.get? j ≠ some 20)) :=
  c6_rank_of_sentinel_and_index sampleView sampleSub 20 "1.2.3.4"

/-- C7: for every View produced by a membership transition (and the formation
View), `num_failed` equals the number of entries of `failed` that are true:
the running count maintained across transitions never drifts from the
true-count. -/
theorem c7_num_failed_is_true_count (v : View) (h : ProducedView v) :
    v.num_failed = (v.failed.count true : Int) :=
  (produced_invariant v h).1

theorem c7_witness :
    (nextView (formationView [1, 2, 3] ["a", "b", "c"] 0) [2] [4] ["d"] 0).num_failed
      = (((nextView (formationView [1, 2, 3] ["a", "b", "c"] 0)
            [2] [4] ["d"] 0).failed).count true : Int) :=
  c7_num_failed_is_true_count _
    (ProducedView.transition (formationView [1, 2, 3] ["a", "b", "c"] 0)
      [2] [4] ["d"] 0
      (ProducedView.formation [1, 2, 3] ["a", "b", "c"] 0 (by decide))
      (by decide) (by decide))

/-- C8: for every SubView and every valid rank `r`, `sender_rank_of(r)` is -1
exactly when `is_sender[r]` is zero, and for a sender it is the count of
senders at ranks below `r` — equivalently, the 0-based ordinal of `r` among
the sending members at or before `r` (one less than their number). -/
theorem c8_sender_rank_of_ordinal (sv : SubView) (r : Nat)
    (hr : r < sv.is_sender.length) :
    (sv.sender_rank_of r = -1 ↔ sv.is_sender.getD r 0 = 0) ∧
    (sv.is_sender.getD r 0 ≠ 0 →
      sv.sender_rank_of r
          = (((sv.is_sender.take r).filter fun s => s != 0).length : Int) ∧
        sv.sender_rank_of r + 1
          = (((sv.is_sender.take (r + 1)).filter fun s => s != 0).length : Int)) := by
  constructor
  · constructor
    · intro hres
      by_contra hnz
      unfold SubView.sender_rank_of at hres
      rw [if_neg hnz] at hres
      omega
    · intro hz
      unfold SubView.sender_rank_of
      rw [if_pos hz]
  · intro hnz
    have h1 : sv.sender_rank_of r
        = (((sv.is_sender.take r).filter fun s => s != 0).length : Int) := by
      unfold SubView.sender_rank_of
      rw [if_neg hnz]
    refine ⟨h1, ?_⟩
    have hgd : sv.is_sender.getD r 0 = sv.is_sender[r] := by
      rw [List.getD_eq_getElem?_getD, List.getElem?_eq_getElem hr]
      rfl
    have htake : sv.is_sender.take (r + 1)
        = sv.is_sender.take r ++ [sv.is_sender.getD r 0] := by
      rw [List.take_succ, List.getElem?_eq_getElem hr, hgd]
      rfl
    have hfx : ((sv.is_sender.getD r 0) != 0) = true := bne_iff_ne.mpr hnz
    have hfx2 : List.filter (fun s => s != 0) [sv.is_sender.getD r 0]
        = [sv.is_sender.getD r 0] := by
      simp only [List.filter_singleton, hfx, cond_true]
    rw [htake, List.filter_append, hfx2, List.length_append, h1,
      List.length_singleton]
    push_cast
    omega

theorem c8_witness :
    ((sampleSub.sender_rank_of 0 = -1 ↔ sampleSub.is_sender.getD 0 0 = 0) ∧
      (sampleSub.is_sender.getD 0 0 ≠ 0 →
        sampleSub.sender_rank_of 0
            = (((sampleSub.is_sender.take 0).filter fun s => s != 0).length : Int) ∧
          sampleSub.sender_rank_of 0 + 1
            = (((sampleSub.is_sender.take 1).filter fun s => s != 0).length : Int))) ∧
    ((sampleSub.sender_rank_of 1 = -1 ↔ sampleSub.is_sender.getD 1 0 = 0) ∧
      (sampleSub.is_sender.getD 1 0 ≠ 0 →
        sampleSub.sender_rank_of 1
            = (((sampleSub.is_sender.take 1).filter fun s => s != 0).length : Int) ∧
          sampleSub.sender_rank_of 1 + 1
            = (((sampleSub.is_sender.take 2).filter fun s => s != 0).length : Int))) :=
  ⟨c8_sender_rank_of_ordinal sampleSub 0 (by decide),
   c8_sender_rank_of_ordinal sampleSub 1 (by decide)⟩

/-- C1: when both the primary view file and a leftover swap file exist and
each deserializes to a View, `load_view` returns the View whose vid is
strictly greater. -/
theorem c1_load_view_strictly_newer (pb sb : List Nat) (pv sv : View)
    (hp : View.from_bytes pb = some pv) (hs : View.from_bytes sb = some sv)
    (hne : pv.vid ≠ sv.vid) :
    ∃ r, load_view (some pb) (some sb) = some r ∧
      ((pv.vid < sv.vid ∧ r = sv) ∨ (sv.vid < pv.vid ∧ r = pv)) := by
  have hb1 : (some pb).bind View.from_bytes = some pv := hp
  have hb2 : (some sb).bind View.from_bytes = some sv := hs
  have hred : load_view (some pb) (some sb)
      = if pv.vid < sv.vid then some sv else some pv := by
    unfold load_view
    rw [hb1, hb2]
  by_cases hlt : pv.vid < sv.vid
  · exact ⟨sv, by rw [hred, if_pos hlt], Or.inl ⟨hlt, rfl⟩⟩
  · have hgt : sv.vid < pv.vid := by omega
    exact ⟨pv, by rw [hred, if_neg hlt], Or.inr ⟨hgt, rfl⟩⟩

/-- A concrete persisted View with vid 4 (the primary artifact). -/
def primaryV4 : View :=
  { vid := 4, members := [1, 2], member_ips := ["a", "b"],
    failed := [false, false], num_failed := 0, joined := [], departed := [],
    num_members := 2, my_rank := 0 }

/-- A concrete persisted View with vid 5 (the leftover swap artifact). -/
def swapV5 : View :=
  { vid := 5, members := [1], member_ips := ["a"], failed := [false],
    num_failed := 0, joined := [], departed := [2], num_members := 1,
    my_rank := 0 }

theorem c1_witness :
    ∃ r, load_view (some primaryV4.to_bytes) (some swapV5.to_bytes) = some r ∧
      ((primaryV4.vid < swapV5.vid ∧ r = swapV5) ∨
        (swapV5.vid < primaryV4.vid ∧ r = primaryV4)) :=
  c1_load_view_strictly_newer primaryV4.to_bytes swapV5.to_bytes primaryV4
    swapV5
    (by
      rw [view_decode_encode primaryV4 (by decide)]
      rfl)
    (by
      rw [view_decode_encode swapV5 (by decide)]
      rfl)
    (by decide)

/-- A concrete View whose two non-serialized flags differ from their
defaults. -/
def sampleViewFlags : View :=
  { vid := 7, members := [1, 2], member_ips := ["a", "b"],
    failed := [false, true], num_failed := 1, joined := [2], departed := [3],
    num_members := 2, my_rank := 0, is_adequately_provisioned := false,
    i_know_i_am_leader := true }

/-- C2 counterexample: serializing and deserializing `sampleViewFlags` does
not reproduce it field for field, although its only non-reproduced fields
(`is_adequately_provisioned`, `i_know_i_am_leader`) are ordinary flags, not
the multicast group or SST pointers. -/
theorem c2_counterexample_roundtrip_not_exact :
    View.from_bytes sampleViewFlags.to_bytes ≠ some sampleViewFlags := by
  rw [view_decode_encode sampleViewFlags (by decide)]
  intro he
  have hflag := congrArg View.i_know_i_am_leader (Option.some.inj he)
  simp [View.ofSerialized, sampleViewFlags] at hflag

/-- C2 (amended): serializing a View to the persisted binary form and
deserializing yields a View that agrees field for field on the nine
serialized fields `{vid, members, member_ips, failed, num_failed, joined,
departed, num_members, my_rank}`; the two flags that are not in the
serialization field list come back as their defaults (`true`, `false`). -/
theorem c2_roundtrip_preserves_serialized_fields (v : View)
    (h : v.serializable) :
    ∃ v2, View.from_bytes v.to_bytes = some v2 ∧
      v2.vid = v.vid ∧ v2.members = v.members ∧ v2.member_ips = v.member_ips ∧
      v2.failed = v.failed ∧ v2.num_failed = v.num_failed ∧
      v2.joined = v.joined ∧ v2.departed = v.departed ∧
      v2.num_members = v.num_members ∧ v2.my_rank = v.my_rank ∧
      v2.is_adequately_provisioned = true ∧ v2.i_know_i_am_leader = false :=
  ⟨View.ofSerialized v.vid v.members v.member_ips v.failed v.num_failed
      v.joined v.departed v.num_members v.my_rank,
    view_decode_encode v h, rfl, rfl, rfl, rfl, rfl, rfl, rfl, rfl, rfl,
    rfl, rfl⟩

theorem c2_witness :
    ∃ v2, View.from_bytes sampleView.to_bytes = some v2 ∧
      v2.vid = sampleView.vid ∧ v2.members = sampleView.members ∧
      v2.member_ips = sampleView.member_ips ∧ v2.failed = sampleView.failed ∧
      v2.num_failed = sampleView.num_failed ∧ v2.joined = sampleView.joined ∧
      v2.departed = sampleView.departed ∧
      v2.num_members = sampleView.num_members ∧
      v2.my_rank = sampleView.my_rank ∧
      v2.is_adequately_provisioned = true ∧ v2.i_know_i_am_leader = false :=
  c2_roundtrip_preserves_serialized_fields sampleView (by decide)

/-- C9: every SubView built by the six-argument constructor used by
serialization support has `my_rank = -1` regardless of the supplied members,
and every SubView obtained by deserialization (of any byte string, in
particular of a serialized SubView) has `my_rank = -1`, because `my_rank` is
not in the SubView serialization field list. -/
theorem c9_subview_my_rank_reset :
    (∀ (mode : Mode) (mems : List node_id_t) (snd : List Int)
        (ips : List ip_addr) (j d : List node_id_t),
      (SubView.ofSerialized mode mems snd ips j d).my_rank = -1) ∧
    (∀ (bs : List Nat) (sv : SubView),
      SubView.from_bytes bs = some sv → sv.my_rank = -1) := by
  constructor
  · intro mode mems snd ips j d
    rfl
  · intro bs sv h
    unfold SubView.from_bytes at h
    repeat' split at h
    all_goals
      first
        | exact Option.noConfusion h
        | (injection h with h2
           subst h2
           rfl)

/-- A concrete SubView with a non-negative `my_rank`, to be round-tripped. -/
def sampleSubWire : SubView :=
  { mode := Mode.RAW, members := [5], is_sender := [1], member_ips := ["x"],
    joined := [], departed := [], my_rank := 9 }

theorem c9_witness :
    (SubView.ofSerialized Mode.ORDERED [3, 4] [1, 0] ["p", "q"] [3] [9]).my_rank
        = -1 ∧
      (SubView.ofSerialized Mode.RAW [5] [1] ["x"] [] []).my_rank = -1 :=
  ⟨c9_subview_my_rank_reset.1 Mode.ORDERED [3, 4] [1, 0] ["p", "q"] [3] [9],
   c9_subview_my_rank_reset.2 sampleSubWire.to_bytes
     (SubView.ofSerialized Mode.RAW [5] [1] ["x"] [] [])
     (subview_decode_encode sampleSubWire (by decide))⟩

/-- C10: every View built by the nine-argument deserialization constructor
has `is_adequately_provisioned = true` and `i_know_i_am_leader = false`,
regardless of the serialized View's flags, because neither flag is in the
View serialization field list. -/
theorem c10_deserialized_view_default_flags :
    (∀ (vid : Int) (mems : List node_id_t) (ips : List ip_addr)
        (fl : List Bool) (nf : Int) (j d : List node_id_t) (nm mr : Int),
      (View.ofSerialized vid mems ips fl nf j d nm mr).is_adequately_provisioned
          = true ∧
        (View.ofSerialized vid mems ips fl nf j d nm mr).i_know_i_am_leader
          = false) ∧
    (∀ (bs : List Nat) (v : View), View.from_bytes bs = some v →
      v.is_adequately_provisioned = true ∧ v.i_know_i_am_leader = false) := by
  constructor
  · intro vid mems ips fl nf j d nm mr
    exact ⟨rfl, rfl⟩
  · intro bs v h
    unfold View.from_bytes at h
    repeat' split at h
    all_goals
      first
        | exact Option.noConfusion h
        | (injection h with h2
           subst h2
           exact ⟨rfl, rfl⟩)

theorem c10_witness :
    ((View.ofSerialized 7 [1, 2] ["a", "b"] [false, true] 1 [2] [3] 2 0).is_adequately_provisioned
        = true ∧
      (View.ofSerialized 7 [1, 2] ["a", "b"] [false, true] 1 [2] [3] 2 0).i_know_i_am_leader
        = false) ∧
    ((View.ofSerialized 7 [1, 2] ["a", "b"] [false, true] 1 [2] [3] 2 0).is_adequately_provisioned
        = true ∧
      (View.ofSerialized 7 [1, 2] ["a", "b"] [false, true] 1 [2] [3] 2 0).i_know_i_am_leader
        = false) :=
  ⟨c10_deserialized_view_default_flags.1 7 [1, 2] ["a", "b"] [false, true] 1
      [2] [3] 2 0,
   c10_deserialized_view_default_flags.2 sampleViewFlags.to_bytes
     (View.ofSerialized 7 [1, 2] ["a", "b"] [false, true] 1 [2] [3] 2 0)
     (view_decode_encode sampleViewFlags (by decide))⟩

end Derecho
